import Mathlib

set_option autoImplicit false

namespace Chyp

/-- Dynamic Python values as stored in the `value`, `x` and `y` fields of
vertex and edge records (`Any` / `float` in the source). -/
inductive PyVal where
  | num (n : Int)
  | str (s : String)
deriving DecidableEq

namespace GraphPy

/-- `VData.__init__` from src/chyp/graph.py.  The fields `in_edges` and
`out_edges` hold *references* to Python set objects: the constructor reads
`in_edges: Set[int]=set(), out_edges: Set[int]=set()`, and Python evaluates a
default argument once, at function definition time, so every `VData` built
without explicit set arguments aliases the same two set objects.  Set objects
are modelled as indices into `Graph.setHeap`; the two default cells sit at
index 0 (the `in_edges` default) and index 1 (the `out_edges` default). -/
structure VData where
  value : PyVal
  x : PyVal
  y : PyVal
  in_edges : Nat
  out_edges : Nat
deriving DecidableEq

/-- `EData.__init__` from src/chyp/graph.py; `s` and `t` default to `None`
and are replaced by fresh empty lists, so edges do not alias. -/
structure EData where
  value : PyVal
  x : PyVal
  y : PyVal
  s : List Nat
  t : List Nat
  hyper : Bool
deriving DecidableEq

/-- `Graph.__init__` from src/chyp/graph.py, together with the heap of
Python set objects reachable from the graph (in particular the two shared
default cells of `VData`). -/
structure Graph where
  vdata : List (Nat × VData)
  edata : List (Nat × EData)
  vindex : Nat
  eindex : Nat
  setHeap : List (Finset Nat)
deriving DecidableEq

/-- A fresh `Graph()`: empty tables, indices at 0, and the two default set
cells (both empty at module definition time). -/
def Graph.init : Graph := ⟨[], [], 0, 0, [∅, ∅]⟩

/-- Dereference a set object. -/
def heapGet (h : List (Finset Nat)) (r : Nat) : Finset Nat := h.getD r ∅

/-- `set.add(e)` on the set object at reference `r`. -/
def heapInsert (h : List (Finset Nat)) (r : Nat) (e : Nat) : List (Finset Nat) :=
  h.set r (insert e (h.getD r ∅))

/-- `self.vdata[v]`, as an `Option` (a missing key raises `KeyError`). -/
def Graph.vlookup (g : Graph) (v : Nat) : Option VData :=
  (g.vdata.find? (fun p => p.1 == v)).map (fun p => p.2)

/-- `self.edata[e]`, as an `Option`. -/
def Graph.elookup (g : Graph) (e : Nat) : Option EData :=
  (g.edata.find? (fun p => p.1 == e)).map (fun p => p.2)

/-- `Graph.add_vertex` from src/chyp/graph.py: take the current `vindex`,
bump it, and store `VData(x, y, value)` (which picks up the two shared
default set references 0 and 1). -/
def Graph.add_vertex (g : Graph) (x y value : PyVal) : Nat × Graph :=
  let v := g.vindex
  (v, { g with vindex := v + 1
             , vdata := g.vdata ++ [(v, ⟨value, x, y, 0, 1⟩)] })

/-- The loops `for v in s: self.vdata[v].out_edges.add(e)` and
`for v in t: self.vdata[v].in_edges.add(e)` of `Graph.add_edge`; `pick`
selects which of the vertex record's two set references receives the edge
id, and a vertex id absent from `vdata` raises `KeyError`. -/
def addToVertexSets (g : Graph) (vs : List Nat) (pick : VData → Nat) (e : Nat) :
    Except String Graph :=
  match vs with
  | [] => .ok g
  | v :: rest =>
    match g.vlookup v with
    | none => .error "KeyError"
    | some vd =>
      addToVertexSets { g with setHeap := heapInsert g.setHeap (pick vd) e } rest pick e

/-- `Graph.add_edge` from src/chyp/graph.py: take the current `eindex`,
bump it, store `EData(s, t, x, y, value)` (with `hyper=True` by default),
then register the new edge id in the `out_edges` set of every source vertex
and the `in_edges` set of every target vertex. -/
def Graph.add_edge (g : Graph) (s t : List Nat) (x y value : PyVal) :
    Except String (Nat × Graph) :=
  let e := g.eindex
  let g1 : Graph := { g with eindex := e + 1
                           , edata := g.edata ++ [(e, ⟨value, x, y, s, t, true⟩)] }
  match addToVertexSets g1 s (fun vd => vd.out_edges) e with
  | .error m => .error m
  | .ok g2 =>
    match addToVertexSets g2 t (fun vd => vd.in_edges) e with
    | .error m => .error m
    | .ok g3 => .ok (e, g3)

/-- `self.edata[e].hyper = False`. -/
def setHyper (l : List (Nat × EData)) (e : Nat) (b : Bool) : List (Nat × EData) :=
  l.map (fun p => if p.1 == e then (p.1, { p.2 with hyper := b }) else p)

/-- `Graph.add_simple_edge` from src/chyp/graph.py.  Note that the source
calls `self.add_edge([s], [t], value)` with `value` in *positional* third
place, which is the `x` parameter of `add_edge`; the edge label therefore
stays at its default `""` while the `value` argument lands in the edge's
`x` field.  Afterwards the stored edge's `hyper` flag is set to `False`. -/
def Graph.add_simple_edge (g : Graph) (s t : Nat) (value : PyVal) :
    Except String (Nat × Graph) :=
  match g.add_edge [s] [t] value (PyVal.num 0) (PyVal.str "") with
  | .error m => .error m
  | .ok (e, g1) => .ok (e, { g1 with edata := setHyper g1.edata e false })

/-- One mutating call on a graph. -/
inductive GOp where
  | addV
  | addE (s t : List Nat)
  | addSE (s t : Nat)
deriving DecidableEq

/-- Run a sequence of mutating calls, collecting the vertex ids and the
edge ids the calls return, in call order; a Python `KeyError` aborts the
run.  All calls use the source defaults for coordinates and labels. -/
def runOps (g : Graph) : List GOp → Except String (Graph × List Nat × List Nat)
  | [] => .ok (g, [], [])
  | GOp.addV :: ops =>
    let p := g.add_vertex (PyVal.num 0) (PyVal.num 0) (PyVal.str "")
    match runOps p.2 ops with
    | .error m => .error m
    | .ok (g', vs, es) => .ok (g', p.1 :: vs, es)
  | GOp.addE s t :: ops =>
    match g.add_edge s t (PyVal.num 0) (PyVal.num 0) (PyVal.str "") with
    | .error m => .error m
    | .ok (e, g1) =>
      match runOps g1 ops with
      | .error m => .error m
      | .ok (g', vs, es) => .ok (g', vs, e :: es)
  | GOp.addSE s t :: ops =>
    match g.add_simple_edge s t (PyVal.str "") with
    | .error m => .error m
    | .ok (e, g1) =>
      match runOps g1 ops with
      | .error m => .error m
      | .ok (g', vs, es) => .ok (g', vs, e :: es)

/-- Structural invariant of every reachable graph: the heap holds exactly
the two default cells, every vertex record references them (indices 0 and
1), and all assigned ids are below the corresponding index counter. -/
def Inv (g : Graph) : Prop :=
  g.setHeap.length = 2 ∧
  (∀ p ∈ g.vdata, p.2.in_edges = 0 ∧ p.2.out_edges = 1) ∧
  (∀ p ∈ g.vdata, p.1 < g.vindex) ∧
  (∀ p ∈ g.edata, p.1 < g.eindex)

theorem addToVertexSets_shape (vs : List Nat) (pick : VData → Nat) (e : Nat) :
    ∀ g g', addToVertexSets g vs pick e = .ok g' →
      g'.vdata = g.vdata ∧ g'.edata = g.edata ∧ g'.vindex = g.vindex ∧
      g'.eindex = g.eindex ∧ g'.setHeap.length = g.setHeap.length := by
  induction vs with
  | nil =>
    intro g g' h
    simp only [addToVertexSets] at h
    cases h
    exact ⟨rfl, rfl, rfl, rfl, rfl⟩
  | cons v rest ih =>
    intro g g' h
    simp only [addToVertexSets] at h
    cases hv : g.vlookup v with
    | none => rw [hv] at h; cases h
    | some vd =>
      rw [hv] at h
      obtain ⟨h1, h2, h3, h4, h5⟩ := ih _ _ h
      refine ⟨h1, h2, h3, h4, ?_⟩
      simpa [heapInsert] using h5

theorem add_edge_shape (g : Graph) (s t : List Nat) (x y value : PyVal)
    (e : Nat) (g' : Graph) (h : g.add_edge s t x y value = .ok (e, g')) :
    e = g.eindex ∧ g'.vdata = g.vdata ∧
    g'.edata = g.edata ++ [(g.eindex, ⟨value, x, y, s, t, true⟩)] ∧
    g'.vindex = g.vindex ∧ g'.eindex = g.eindex + 1 ∧
    g'.setHeap.length = g.setHeap.length := by
  simp only [Graph.add_edge] at h
  cases h1 : addToVertexSets
      { g with eindex := g.eindex + 1
             , edata := g.edata ++ [(g.eindex, ⟨value, x, y, s, t, true⟩)] }
      s (fun vd => vd.out_edges) g.eindex with
  | error m => rw [h1] at h; cases h
  | ok g2 =>
    rw [h1] at h
    dsimp only at h
    cases h2 : addToVertexSets g2 t (fun vd => vd.in_edges) g.eindex with
    | error m => rw [h2] at h; cases h
    | ok g3 =>
      rw [h2] at h
      dsimp only at h
      cases h
      obtain ⟨a1, a2, a3, a4, a5⟩ := addToVertexSets_shape _ _ _ _ _ h1
      obtain ⟨b1, b2, b3, b4, b5⟩ := addToVertexSets_shape _ _ _ _ _ h2
      refine ⟨rfl, ?_, ?_, ?_, ?_, ?_⟩
      · rw [b1, a1]
      · rw [b2, a2]
      · rw [b3, a3]
      · rw [b4, a4]
      · rw [b5, a5]

theorem setHyper_keys (l : List (Nat × EData)) (e : Nat) (b : Bool) :
    (setHyper l e b).map Prod.fst = l.map Prod.fst := by
  induction l with
  | nil => rfl
  | cons p rest ih =>
    show ((if p.1 == e then (p.1, { p.2 with hyper := b }) else p) :: setHyper rest e b).map Prod.fst
        = p.1 :: rest.map Prod.fst
    rw [List.map_cons, ih]
    congr 1
    split <;> rfl

theorem add_simple_edge_shape (g : Graph) (s t : Nat) (value : PyVal)
    (e : Nat) (g' : Graph) (h : g.add_simple_edge s t value = .ok (e, g')) :
    e = g.eindex ∧ g'.vdata = g.vdata ∧
    g'.edata = setHyper (g.edata ++ [(g.eindex, ⟨PyVal.str "", value, PyVal.num 0, [s], [t], true⟩)]) g.eindex false ∧
    g'.vindex = g.vindex ∧ g'.eindex = g.eindex + 1 ∧
    g'.setHeap.length = g.setHeap.length := by
  simp only [Graph.add_simple_edge] at h
  cases h1 : g.add_edge [s] [t] value (PyVal.num 0) (PyVal.str "") with
  | error m => rw [h1] at h; cases h
  | ok p =>
    obtain ⟨e1, g1⟩ := p
    rw [h1] at h
    cases h
    obtain ⟨a1, a2, a3, a4, a5, a6⟩ := add_edge_shape _ _ _ _ _ _ _ _ h1
    subst a1
    exact ⟨rfl, a2, by rw [a3], a4, a5, a6⟩

theorem setHyper_keys_lt (l : List (Nat × EData)) (e : Nat) (b : Bool) (n : Nat)
    (h : ∀ p ∈ l, p.1 < n) : ∀ p ∈ setHyper l e b, p.1 < n := by
  intro p hp
  simp only [setHyper, List.mem_map] at hp
  obtain ⟨q, hq, rfl⟩ := hp
  split <;> exact h q hq

theorem Inv.init : Inv Graph.init := by
  refine ⟨rfl, ?_, ?_, ?_⟩ <;> intro p hp <;> simp [Graph.init] at hp

theorem Inv.add_vertex (g : Graph) (x y value : PyVal) (hg : Inv g) :
    Inv (g.add_vertex x y value).2 := by
  obtain ⟨h1, h2, h3, h4⟩ := hg
  refine ⟨h1, ?_, ?_, h4⟩
  · intro p hp
    rcases List.mem_append.mp hp with hp | hp
    · exact h2 p hp
    · obtain rfl := List.mem_singleton.mp hp
      exact ⟨rfl, rfl⟩
  · intro p hp
    rcases List.mem_append.mp hp with hp | hp
    · exact Nat.lt_succ_of_lt (h3 p hp)
    · obtain rfl := List.mem_singleton.mp hp
      exact Nat.lt_succ_self _

theorem Inv.add_edge (g : Graph) (s t : List Nat) (x y value : PyVal) (e : Nat)
    (g' : Graph) (h : g.add_edge s t x y value = .ok (e, g')) (hg : Inv g) : Inv g' := by
  obtain ⟨a1, a2, a3, a4, a5, a6⟩ := add_edge_shape g s t x y value e g' h
  obtain ⟨h1, h2, h3, h4⟩ := hg
  refine ⟨by rw [a6, h1], ?_, ?_, ?_⟩
  · intro p hp; rw [a2] at hp; exact h2 p hp
  · intro p hp; rw [a2] at hp; rw [a4]; exact h3 p hp
  · intro p hp
    rw [a3] at hp; rw [a5]
    rcases List.mem_append.mp hp with hp | hp
    · exact Nat.lt_succ_of_lt (h4 p hp)
    · obtain rfl := List.mem_singleton.mp hp
      exact Nat.lt_succ_self _

theorem Inv.add_simple_edge (g : Graph) (s t : Nat) (value : PyVal) (e : Nat)
    (g' : Graph) (h : g.add_simple_edge s t value = .ok (e, g')) (hg : Inv g) : Inv g' := by
  obtain ⟨a1, a2, a3, a4, a5, a6⟩ := add_simple_edge_shape g s t value e g' h
  obtain ⟨h1, h2, h3, h4⟩ := hg
  refine ⟨by rw [a6, h1], ?_, ?_, ?_⟩
  · intro p hp; rw [a2] at hp; exact h2 p hp
  · intro p hp; rw [a2] at hp; rw [a4]; exact h3 p hp
  · intro p hp
    rw [a3] at hp; rw [a5]
    refine setHyper_keys_lt _ _ _ _ ?_ p hp
    intro q hq
    rcases List.mem_append.mp hq with hq | hq
    · exact Nat.lt_succ_of_lt (h4 q hq)
    · obtain rfl := List.mem_singleton.mp hq
      exact Nat.lt_succ_self _

theorem runOps_ok (ops : List GOp) :
    ∀ g g' vs es, runOps g ops = .ok (g', vs, es) → Inv g →
      vs = List.range' g.vindex vs.length ∧ es = List.range' g.eindex es.length ∧ Inv g' := by
  induction ops with
  | nil =>
    intro g g' vs es h hg
    simp only [runOps] at h
    cases h
    exact ⟨rfl, rfl, hg⟩
  | cons op rest ih =>
    intro g g' vs es h hg
    cases op with
    | addV =>
      simp only [runOps] at h
      cases hr : runOps (g.add_vertex (PyVal.num 0) (PyVal.num 0) (PyVal.str "")).2 rest with
      | error m => rw [hr] at h; cases h
      | ok r =>
        obtain ⟨g2, vs2, es2⟩ := r
        rw [hr] at h
        dsimp only at h
        cases h
        obtain ⟨hv, he, hinv⟩ :=
          ih _ _ _ _ hr (Inv.add_vertex g (PyVal.num 0) (PyVal.num 0) (PyVal.str "") hg)
        exact ⟨congrArg (List.cons g.vindex) hv, he, hinv⟩
    | addE s t =>
      simp only [runOps] at h
      cases ha : g.add_edge s t (PyVal.num 0) (PyVal.num 0) (PyVal.str "") with
      | error m => rw [ha] at h; cases h
      | ok p =>
        obtain ⟨e, g1⟩ := p
        rw [ha] at h
        dsimp only at h
        cases hr : runOps g1 rest with
        | error m => rw [hr] at h; cases h
        | ok r =>
          obtain ⟨g2, vs2, es2⟩ := r
          rw [hr] at h
          dsimp only at h
          cases h
          obtain ⟨a1, _, _, a4, a5, _⟩ := add_edge_shape g s t _ _ _ e g1 ha
          obtain ⟨hv, he, hinv⟩ := ih _ _ _ _ hr (Inv.add_edge g s t _ _ _ e g1 ha hg)
          subst a1
          refine ⟨?_, ?_, hinv⟩
          · rw [a4] at hv; exact hv
          · rw [a5] at he; exact congrArg (List.cons g.eindex) he
    | addSE s t =>
      simp only [runOps] at h
      cases ha : g.add_simple_edge s t (PyVal.str "") with
      | error m => rw [ha] at h; cases h
      | ok p =>
        obtain ⟨e, g1⟩ := p
        rw [ha] at h
        dsimp only at h
        cases hr : runOps g1 rest with
        | error m => rw [hr] at h; cases h
        | ok r =>
          obtain ⟨g2, vs2, es2⟩ := r
          rw [hr] at h
          dsimp only at h
          cases h
          obtain ⟨a1, _, _, a4, a5, _⟩ := add_simple_edge_shape g s t _ e g1 ha
          obtain ⟨hv, he, hinv⟩ := ih _ _ _ _ hr (Inv.add_simple_edge g s t _ e g1 ha hg)
          subst a1
          refine ⟨?_, ?_, hinv⟩
          · rw [a4] at hv; exact hv
          · rw [a5] at he; exact congrArg (List.cons g.eindex) he

/-- Edge ids whose source list contains `v` (the out-edges the claimed
invariant says `v` should have). -/
def srcEdges (g : Graph) (v : Nat) : List Nat :=
  (g.edata.filter (fun p => p.2.s.contains v)).map Prod.fst

/-- Edge ids whose target list contains `v`. -/
def tgtEdges (g : Graph) (v : Nat) : List Nat :=
  (g.edata.filter (fun p => p.2.t.contains v)).map Prod.fst

/-- The graph produced by `Graph(); add_vertex(); add_vertex();
add_simple_edge(0, 1)`. -/
def bugGraph : Graph :=
  match runOps Graph.init [GOp.addV, GOp.addV, GOp.addSE 0 1] with
  | .ok (g, _, _) => g
  | .error _ => Graph.init

theorem addToVertexSets_single (g : Graph) (v : Nat) (pick : VData → Nat) (e : Nat)
    (vd : VData) (h : g.vlookup v = some vd) :
    addToVertexSets g [v] pick e =
      .ok { g with setHeap := heapInsert g.setHeap (pick vd) e } := by
  simp only [addToVertexSets, h]

theorem add_edge_single (g : Graph) (s t : Nat) (x y value : PyVal) (sd td : VData)
    (hs : g.vlookup s = some sd) (ht : g.vlookup t = some td) :
    g.add_edge [s] [t] x y value = .ok (g.eindex,
      { g with eindex := g.eindex + 1
             , edata := g.edata ++ [(g.eindex, ⟨value, x, y, [s], [t], true⟩)]
             , setHeap := heapInsert (heapInsert g.setHeap sd.out_edges g.eindex)
                 td.in_edges g.eindex }) := by
  have hs1 : ({ g with eindex := g.eindex + 1
                     , edata := g.edata ++ [(g.eindex, ⟨value, x, y, [s], [t], true⟩)] }
      : Graph).vlookup s = some sd := hs
  have ht1 : ({ g with eindex := g.eindex + 1
                     , edata := g.edata ++ [(g.eindex, ⟨value, x, y, [s], [t], true⟩)]
                     , setHeap := heapInsert g.setHeap sd.out_edges g.eindex }
      : Graph).vlookup t = some td := ht
  simp only [Graph.add_edge]
  rw [addToVertexSets_single _ _ _ _ _ hs1]
  dsimp only
  rw [addToVertexSets_single _ _ _ _ _ ht1]

theorem add_simple_edge_single (g : Graph) (s t : Nat) (value : PyVal) (sd td : VData)
    (hs : g.vlookup s = some sd) (ht : g.vlookup t = some td) :
    g.add_simple_edge s t value = .ok (g.eindex,
      { g with eindex := g.eindex + 1
             , edata := setHyper
                 (g.edata ++ [(g.eindex, ⟨PyVal.str "", value, PyVal.num 0, [s], [t], true⟩)])
                 g.eindex false
             , setHeap := heapInsert (heapInsert g.setHeap sd.out_edges g.eindex)
                 td.in_edges g.eindex }) := by
  simp only [Graph.add_simple_edge,
    add_edge_single g s t value (PyVal.num 0) (PyVal.str "") sd td hs ht]

theorem find?_setHyper_append (l : List (Nat × EData)) (e : Nat) (x : EData) (b : Bool)
    (hl : ∀ p ∈ l, p.1 ≠ e) :
    (setHyper (l ++ [(e, x)]) e b).find? (fun p => p.1 == e)
      = some (e, { x with hyper := b }) := by
  induction l with
  | nil => simp [setHyper, List.find?]
  | cons p rest ih =>
    have hp : (p.1 == e) = false := beq_eq_false_iff_ne.mpr (hl p (List.mem_cons_self p rest))
    have hrest : ∀ q ∈ rest, q.1 ≠ e := fun q hq => hl q (List.mem_cons_of_mem p hq)
    simp only [setHyper, List.cons_append, List.map_cons, hp] at ih ⊢
    rw [if_neg (by simp [hp])]
    rw [List.find?_cons_of_neg _ (by simp [hp])]
    exact ih hrest

theorem vlookup_refs (g : Graph)
    (hrefs : ∀ p ∈ g.vdata, p.2.in_edges = 0 ∧ p.2.out_edges = 1)
    (v : Nat) (vd : VData) (h : g.vlookup v = some vd) :
    vd.in_edges = 0 ∧ vd.out_edges = 1 := by
  simp only [Graph.vlookup, Option.map_eq_some'] at h
  obtain ⟨p, hp, rfl⟩ := h
  exact hrefs p (List.mem_of_find?_eq_some hp)

theorem exists_pair_of_length_two (h : List (Finset Nat)) (hl : h.length = 2) :
    ∃ a b, h = [a, b] := by
  rcases h with - | ⟨a, - | ⟨b, - | ⟨c, tl⟩⟩⟩ <;> simp at hl
  exact ⟨_, _, rfl⟩

/-- C1: the claimed invariant fails on the code.  In the graph built by
`add_vertex(); add_vertex(); add_simple_edge(0, 1)`, vertex 1's `out_edges`
set contains edge 0 even though no edge lists vertex 1 among its sources,
and vertex 0's `in_edges` set contains edge 0 even though no edge lists
vertex 0 among its targets: all vertices share the two default set objects
of `VData.__init__`, so every mutation is visible through every vertex. -/
theorem c1_shared_edge_sets_bug :
    (bugGraph.vlookup 1).map (fun vd => heapGet bugGraph.setHeap vd.out_edges)
      = some ({0} : Finset Nat) ∧
    srcEdges bugGraph 1 = [] ∧
    (bugGraph.vlookup 0).map (fun vd => heapGet bugGraph.setHeap vd.in_edges)
      = some ({0} : Finset Nat) ∧
    tgtEdges bugGraph 0 = [] := by decide

/-- C6: on any reachable graph with existing vertices `s` and `t`,
`add_simple_edge(s, t, value)` adds exactly one new edge whose source list
is `[s]`, target list is `[t]` and `hyper` flag is `False`, whose label
(`value` field) is the empty string while the `value` argument lands in the
edge's `x` field, and registers the new edge id in the out-edge set
referenced by `s` and the in-edge set referenced by `t`. -/
theorem c6_add_simple_edge_spec (ops : List GOp) (g : Graph) (rvs res : List Nat)
    (hreach : runOps Graph.init ops = .ok (g, rvs, res))
    (s t : Nat) (value : PyVal) (sd td : VData)
    (hs : g.vlookup s = some sd) (ht : g.vlookup t = some td) :
    ∃ g', g.add_simple_edge s t value = .ok (g.eindex, g') ∧
      g'.elookup g.eindex = some ⟨PyVal.str "", value, PyVal.num 0, [s], [t], false⟩ ∧
      g'.edata.length = g.edata.length + 1 ∧
      g'.vdata = g.vdata ∧
      g.eindex ∈ heapGet g'.setHeap sd.out_edges ∧
      g.eindex ∈ heapGet g'.setHeap td.in_edges := by
  obtain ⟨-, -, hinv⟩ := runOps_ok ops Graph.init g rvs res hreach Inv.init
  obtain ⟨hlen, hrefs, hvkeys, hekeys⟩ := hinv
  obtain ⟨hin_s, hout_s⟩ := vlookup_refs g hrefs s sd hs
  obtain ⟨hin_t, hout_t⟩ := vlookup_refs g hrefs t td ht
  obtain ⟨c0, c1, hheap⟩ := exists_pair_of_length_two g.setHeap hlen
  refine ⟨_, add_simple_edge_single g s t value sd td hs ht, ?_, ?_, rfl, ?_, ?_⟩
  · have hne : ∀ p ∈ g.edata, p.1 ≠ g.eindex := fun p hp => Nat.ne_of_lt (hekeys p hp)
    show Option.map (fun p => p.2)
        ((setHyper (g.edata ++ [(g.eindex, ⟨PyVal.str "", value, PyVal.num 0, [s], [t], true⟩)])
          g.eindex false).find? (fun p => p.1 == g.eindex))
      = some ⟨PyVal.str "", value, PyVal.num 0, [s], [t], false⟩
    rw [find?_setHyper_append g.edata g.eindex _ false hne]
    rfl
  · show (setHyper (g.edata ++ [(g.eindex, ⟨PyVal.str "", value, PyVal.num 0, [s], [t], true⟩)])
        g.eindex false).length = g.edata.length + 1
    simp [setHyper]
  · show g.eindex ∈ heapGet
      (heapInsert (heapInsert g.setHeap sd.out_edges g.eindex) td.in_edges g.eindex)
      sd.out_edges
    rw [hout_s, hin_t, hheap]
    simp [heapInsert, heapGet]
  · show g.eindex ∈ heapGet
      (heapInsert (heapInsert g.setHeap sd.out_edges g.eindex) td.in_edges g.eindex)
      td.in_edges
    rw [hout_s, hin_t, hheap]
    simp [heapInsert, heapGet]

theorem c6_add_simple_edge_spec_witness :
    ∃ g', Graph.add_simple_edge
        ⟨[(0, ⟨PyVal.str "", PyVal.num 0, PyVal.num 0, 0, 1⟩),
          (1, ⟨PyVal.str "", PyVal.num 0, PyVal.num 0, 0, 1⟩)], [], 2, 0, [∅, ∅]⟩
        0 1 (PyVal.num 7) = .ok (0, g') ∧
      g'.elookup 0 = some ⟨PyVal.str "", PyVal.num 7, PyVal.num 0, [0], [1], false⟩ ∧
      g'.edata.length = 0 + 1 ∧
      g'.vdata = [(0, ⟨PyVal.str "", PyVal.num 0, PyVal.num 0, 0, 1⟩),
                  (1, ⟨PyVal.str "", PyVal.num 0, PyVal.num 0, 0, 1⟩)] ∧
      0 ∈ heapGet g'.setHeap 1 ∧
      0 ∈ heapGet g'.setHeap 0 := by
  have hreach : runOps Graph.init [GOp.addV, GOp.addV]
      = .ok (⟨[(0, ⟨PyVal.str "", PyVal.num 0, PyVal.num 0, 0, 1⟩),
               (1, ⟨PyVal.str "", PyVal.num 0, PyVal.num 0, 0, 1⟩)], [], 2, 0, [∅, ∅]⟩,
             [0, 1], []) := rfl
  exact c6_add_simple_edge_spec [GOp.addV, GOp.addV] _ [0, 1] [] hreach 0 1 (PyVal.num 7)
    ⟨PyVal.str "", PyVal.num 0, PyVal.num 0, 0, 1⟩
    ⟨PyVal.str "", PyVal.num 0, PyVal.num 0, 0, 1⟩ rfl rfl

/-- C10: a graph built from `Graph()` by any successful sequence of
`add_vertex`, `add_edge` and `add_simple_edge` calls hands out vertex ids
`0, 1, 2, ...` in call order and edge ids `0, 1, 2, ...` in call order:
each family is strictly increasing from 0, so no id is ever reused and
every returned id is distinct from all ids previously assigned in that
graph. -/
theorem c10_fresh_ids (ops : List GOp) (g : Graph) (vids eids : List Nat)
    (h : runOps Graph.init ops = .ok (g, vids, eids)) :
    vids = List.range vids.length ∧ eids = List.range eids.length ∧
    vids.Pairwise (· < ·) ∧ eids.Pairwise (· < ·) ∧
    vids.Nodup ∧ eids.Nodup := by
  obtain ⟨hv, he, -⟩ := runOps_ok ops Graph.init g vids eids h Inv.init
  have hv2 : vids = List.range vids.length := by rw [List.range_eq_range']; exact hv
  have he2 : eids = List.range eids.length := by rw [List.range_eq_range']; exact he
  refine ⟨hv2, he2, ?_, ?_, ?_, ?_⟩
  · rw [hv2]; exact List.pairwise_lt_range _
  · rw [he2]; exact List.pairwise_lt_range _
  · rw [hv2]; exact List.nodup_range _
  · rw [he2]; exact List.nodup_range _

theorem c10_fresh_ids_witness :
    ([0, 1] : List Nat) = List.range ([0, 1] : List Nat).length ∧
    ([0] : List Nat) = List.range ([0] : List Nat).length ∧
    ([0, 1] : List Nat).Pairwise (· < ·) ∧ ([0] : List Nat).Pairwise (· < ·) ∧
    ([0, 1] : List Nat).Nodup ∧ ([0] : List Nat).Nodup := by
  obtain ⟨g, hg⟩ : ∃ g, runOps Graph.init [GOp.addV, GOp.addV, GOp.addSE 0 1]
      = Except.ok (g, [0, 1], [0]) := ⟨_, rfl⟩
  exact c10_fresh_ids [GOp.addV, GOp.addV, GOp.addSE 0 1] g [0, 1] [0] hg

end GraphPy

namespace StatePy

/-- Modelled from the spec: the hyperedge record of the graph used by
src/chyp/state.py (that richer version of graph.py, with domain/codomain
boundaries and the term algebra, is not under src/): a label, an ordered
source list, an ordered target list and a `hyper` flag (spec section 3). -/
structure AEdge where
  value : String
  s : List Nat
  t : List Nat
  hyper : Bool
deriving DecidableEq

/-- Modelled from the spec: the open hypergraph of spec section 3 — vertex
ids, an edge table, and the two ordered boundary lists `dom` and `cod`. -/
structure AGraph where
  vs : List Nat
  edges : List (Nat × AEdge)
  dom : List Nat
  cod : List Nat
deriving DecidableEq

/-- First vertex id strictly above every id of `g` (used to relabel the
right operand of a disjoint union). -/
def vshift (g : AGraph) : Nat := g.vs.foldr max 0 + 1

/-- First edge id strictly above every edge id of `g`. -/
def eshift (g : AGraph) : Nat := (g.edges.map Prod.fst).foldr max 0 + 1

/-- Modelled from the spec: `gen(label, arity, coarity)` builds a graph
with `arity` fresh domain vertices, `coarity` fresh codomain vertices, and
one hyperedge labelled `label` from the domain to the codomain
(spec section 4.1). -/
def gen (label : String) (arity coarity : Nat) : AGraph :=
  let d := List.range arity
  let c := (List.range coarity).map (fun i => arity + i)
  ⟨d ++ c, [(0, ⟨label, d, c, true⟩)], d, c⟩

/-- Modelled from the spec: `identity()` is a single vertex with
domain = codomain = that vertex and no edge (spec section 4.1). -/
def identity : AGraph := ⟨[0], [], [0], [0]⟩

/-- Modelled from the spec: `perm(p)` for `p` a permutation of `0..k-1`
builds a `k → k` graph of binary wires, wire `i` connecting domain vertex
`p[i]` to codomain vertex `i`; a `GraphError` (modelled as the error
string) is raised when `p` is out of range or repeats an index
(spec section 4.1). -/
def perm (p : List Nat) : Except String AGraph :=
  let k := p.length
  if (∀ i ∈ p, i < k) ∧ p.Nodup then
    .ok ⟨List.range k ++ (List.range k).map (k + ·),
         (List.range k).map (fun i => (i, ⟨"", [p.getD i 0], [k + i], false⟩)),
         List.range k, (List.range k).map (k + ·)⟩
  else .error "invalid permutation"

/-- Modelled from the spec: tensor `g1 * g2` — disjoint union with the ids
of `g2` relabelled above those of `g1`, boundaries concatenated
(spec section 4.1).  Always succeeds. -/
def tensor (g1 g2 : AGraph) : AGraph :=
  let vo := vshift g1
  let eo := eshift g1
  ⟨g1.vs ++ g2.vs.map (vo + ·),
   g1.edges ++ g2.edges.map (fun p =>
     (eo + p.1, ⟨p.2.value, p.2.s.map (vo + ·), p.2.t.map (vo + ·), p.2.hyper⟩)),
   g1.dom ++ g2.dom.map (vo + ·),
   g1.cod ++ g2.cod.map (vo + ·)⟩

/-- Modelled from the spec: sequential composition `g1 >> g2` — requires
`cod(g1)` and `dom(g2)` to have the same length (else `GraphError`), then
identifies the i-th codomain vertex of `g1` with the i-th domain vertex of
`g2` in the relabelled disjoint union (spec section 4.1). -/
def seq (g1 g2 : AGraph) : Except String AGraph :=
  if g1.cod.length = g2.dom.length then
    let vo := vshift g1
    let eo := eshift g1
    let pairs := (g2.dom.map (vo + ·)).zip g1.cod
    let ren : Nat → Nat := fun v =>
      match pairs.find? (fun q => q.1 == v) with
      | some q => q.2
      | none => v
    .ok ⟨g1.vs ++ (g2.vs.map (vo + ·)).filter (fun v => !(g2.dom.map (vo + ·)).contains v),
         g1.edges ++ g2.edges.map (fun p =>
           (eo + p.1, ⟨p.2.value, (p.2.s.map (vo + ·)).map ren,
                       (p.2.t.map (vo + ·)).map ren, p.2.hyper⟩)),
         g1.dom,
         (g2.cod.map (vo + ·)).map ren⟩
  else .error "arity mismatch in sequential composition"

/-- Modelled from the spec: a `Rule` is a pair of graphs; construction
(`mkRule`) validates equal domain lengths and equal codomain lengths and
raises `RuleError` (modelled as the error string) otherwise
(spec section 4.2). -/
structure Rule where
  lhs : AGraph
  rhs : AGraph
deriving DecidableEq

def mkRule (lhs rhs : AGraph) : Except String Rule :=
  if lhs.dom.length = rhs.dom.length ∧ lhs.cod.length = rhs.cod.length then
    .ok ⟨lhs, rhs⟩
  else .error "rule arity mismatch"

/-- Token kinds of the grammar in src/chyp/state.py: the literal keywords,
the symbol literals, `CNAME` and `INT`. -/
inductive Tok where
  | kgen | klet | krule | krewrite | kby | ksw | kid
  | colon | eq | arrow | semi | star | lparen | rparen
  | lbrack | rbrack | comma | question
  | cname (s : String)
  | int (n : Nat)
deriving DecidableEq

/-- A lexed token with its 1-based line and 0-based character offsets
(`end_pos` exclusive), as Lark attaches them. -/
structure PTok where
  tok : Tok
  line : Int
  start_pos : Nat
  end_pos : Nat
deriving DecidableEq

/-- The three Lark failures caught by `State.update`: unexpected end of
input, unexpected token, unexpected characters (the latter two with the
line Lark reports). -/
inductive ParseErr where
  | eof (msg : String)
  | tok (line : Int) (msg : String)
  | chars (line : Int) (msg : String)
deriving DecidableEq

def isIdentStart (c : Char) : Bool := c.isAlpha || c == '_'

def isIdentChar (c : Char) : Bool := c.isAlphanum || c == '_'

/-- Keyword literals of the grammar take precedence over `CNAME` on an
exact match (Lark gives literal terminals priority at equal length). -/
def classifyWord (s : String) : Tok :=
  if s = "gen" then .kgen
  else if s = "let" then .klet
  else if s = "rule" then .krule
  else if s = "rewrite" then .krewrite
  else if s = "by" then .kby
  else if s = "sw" then .ksw
  else if s = "id" then .kid
  else .cname s

def digitsToNat (cs : List Char) : Nat :=
  cs.foldl (fun acc c => acc * 10 + (c.toNat - 48)) 0

/-- Partial token of the longest-match scan: an identifier or integer in
progress (with its start line/offset and accumulated characters), or a
lone `-` waiting for `>`. -/
inductive CurTok where
  | ident (sLine : Int) (sPos : Nat) (acc : List Char)
  | num (sLine : Int) (sPos : Nat) (acc : List Char)
  | dash (sLine : Int) (sPos : Nat)
deriving DecidableEq

/-- Close the token in progress at offset `pos` (end of input or a
character that cannot extend it).  A lone `-` matches no terminal of the
grammar, so it is an unexpected-characters failure at its own position. -/
def finishCur (cur : Option CurTok) (pos : Nat) : Except ParseErr (List PTok) :=
  match cur with
  | none => .ok []
  | some (.ident l s acc) => .ok [⟨classifyWord (String.mk acc), l, s, pos⟩]
  | some (.num l s acc) => .ok [⟨.int (digitsToNat acc), l, s, pos⟩]
  | some (.dash l _) => .error (.chars l "Unexpected characters")

/-- The single-character symbol terminals of the grammar. -/
def symOf (c : Char) : Option Tok :=
  if c = ':' then some .colon
  else if c = '=' then some .eq
  else if c = ';' then some .semi
  else if c = '*' then some .star
  else if c = '(' then some .lparen
  else if c = ')' then some .rparen
  else if c = '[' then some .lbrack
  else if c = ']' then some .rbrack
  else if c = ',' then some .comma
  else if c = '?' then some .question
  else none

/-- Begin scanning at character `c` with no token in progress.  The grammar
ignores exactly `" "` and `"\n"` (its two `ignore` directives); any other
character that starts no terminal is an unexpected-characters failure. -/
def startTok (c : Char) (pos : Nat) (line : Int) :
    Except ParseErr (List PTok × Option CurTok × Int) :=
  if c = ' ' then .ok ([], none, line)
  else if c = '\n' then .ok ([], none, line + 1)
  else if isIdentStart c then .ok ([], some (.ident line pos [c]), line)
  else if c.isDigit then .ok ([], some (.num line pos [c]), line)
  else if c = '-' then .ok ([], some (.dash line pos), line)
  else
    match symOf c with
    | some t => .ok ([⟨t, line, pos, pos + 1⟩], none, line)
    | none => .error (.chars line "Unexpected characters")

/-- One step of the longest-match scan: extend the token in progress if the
character continues it, otherwise close it and start afresh at `c`. -/
def lexStep (cur : Option CurTok) (c : Char) (pos : Nat) (line : Int) :
    Except ParseErr (List PTok × Option CurTok × Int) :=
  match cur with
  | none => startTok c pos line
  | some (.ident l s acc) =>
    if isIdentChar c then .ok ([], some (.ident l s (acc ++ [c])), line)
    else
      match startTok c pos line with
      | .error e => .error e
      | .ok (ts, cur2, line2) =>
        .ok (⟨classifyWord (String.mk acc), l, s, pos⟩ :: ts, cur2, line2)
  | some (.num l s acc) =>
    if c.isDigit then .ok ([], some (.num l s (acc ++ [c])), line)
    else
      match startTok c pos line with
      | .error e => .error e
      | .ok (ts, cur2, line2) =>
        .ok (⟨.int (digitsToNat acc), l, s, pos⟩ :: ts, cur2, line2)
  | some (.dash l s) =>
    if c = '>' then .ok ([⟨.arrow, l, s, pos + 1⟩], none, line)
    else .error (.chars l "Unexpected characters")

/-- The lexer: scan the characters left to right, tracking the 0-based
offset, the 1-based line, and the token in progress. -/
def lexRun : List Char → Nat → Int → Option CurTok → Except ParseErr (List PTok)
  | [], pos, _, cur => finishCur cur pos
  | c :: cs, pos, line, cur =>
    match lexStep cur c pos line with
    | .error e => .error e
    | .ok (ts, cur2, line2) =>
      match lexRun cs (pos + 1) line2 cur2 with
      | .error e => .error e
      | .ok ts2 => .ok (ts ++ ts2)

def lex (code : String) : Except ParseErr (List PTok) := lexRun code.data 0 1 none

/-- Parser failures at the token level: unexpected end of input, or an
unexpected token at index `i` of the token stream. -/
inductive KErr where
  | eof
  | tok (i : Nat)
deriving DecidableEq

/-- Parse tree of `term`.  Each node carries the index range (first token,
last token, inclusive) that Lark's `propagate_positions` covers: a
production's meta spans from its first to its last matched token,
anonymous keyword and symbol tokens included; a parenthesised term keeps
the meta of the inner node. -/
inductive Term where
  | id (fst lst : Nat)
  | perm (fst lst : Nat) (idxs : Option (List Nat))
  | ref (fst lst : Nat) (name : String)
  | par (fst lst : Nat) (a b : Term)
  | seq (fst lst : Nat) (a b : Term)
deriving DecidableEq

def Term.fstIdx : Term → Nat
  | .id f _ | .perm f _ _ | .ref f _ _ | .par f _ _ _ | .seq f _ _ _ => f

def Term.lstIdx : Term → Nat
  | .id _ l | .perm _ l _ | .ref _ l _ | .par _ l _ _ | .seq _ l _ _ => l

/-- One `rewrite_part : "=" term_hole "by" rule_ref num?`, spanning token
indices `fst..lst`; `hole` is `none` for the `?` placeholder. -/
structure RwPart where
  fst : Nat
  lst : Nat
  holeFst : Nat
  holeLst : Nat
  hole : Option Term
  rule : String
  idx : Option Nat
deriving DecidableEq

/-- The four statement kinds of the grammar, with their token index
spans. -/
inductive Stmt where
  | gen (fst lst : Nat) (name : String) (arity coarity : Nat)
  | letS (fst lst : Nat) (name : String) (t : Term)
  | ruleS (fst lst : Nat) (name : String) (lhs rhs : Term)
  | rewriteS (fst lst : Nat) (name : String) (t : Term) (parts : List RwPart)
deriving DecidableEq

def expectTok (ts : List Tok) (i : Nat) (t : Tok) : Except KErr Nat :=
  match ts[i]? with
  | none => .error .eof
  | some u => if u = t then .ok (i + 1) else .error (.tok i)

def expectCName (ts : List Tok) (i : Nat) : Except KErr (String × Nat) :=
  match ts[i]? with
  | none => .error .eof
  | some (.cname s) => .ok (s, i + 1)
  | some _ => .error (.tok i)

def expectInt (ts : List Tok) (i : Nat) : Except KErr (Nat × Nat) :=
  match ts[i]? with
  | none => .error .eof
  | some (.int n) => .ok (n, i + 1)
  | some _ => .error (.tok i)

/-- The bracketed index list of `perm : "sw" [ "[" num ("," num)* "]" ]`,
entered just after the `[`; returns the numbers and the index after the
closing `]`. -/
def parseNumList (fuel : Nat) (ts : List Tok) (i : Nat) (acc : List Nat) :
    Except KErr (List Nat × Nat) :=
  match fuel with
  | 0 => .error .eof
  | fuel + 1 =>
    match expectInt ts i with
    | .error e => .error e
    | .ok (n, j) =>
      match ts[j]? with
      | some .comma => parseNumList fuel ts (j + 1) (acc ++ [n])
      | _ =>
        match expectTok ts j .rbrack with
        | .error e => .error e
        | .ok k => .ok (acc ++ [n], k)

/-- Precedence levels of the term grammar: `top` parses `?term`
(sequential composition, lowest), `parl` parses `par` (tensor), `atom`
parses `?par_term`.  Both binary operators associate to the right, which
is how Lark's LALR parser resolves the shift/reduce conflicts of this
grammar (shift preferred). -/
inductive Lvl where
  | top | parl | atom
deriving DecidableEq

def parseT (fuel : Nat) (lvl : Lvl) (ts : List Tok) (i : Nat) :
    Except KErr (Term × Nat) :=
  match fuel with
  | 0 => .error .eof
  | fuel + 1 =>
    match lvl with
    | .top =>
      match parseT fuel .parl ts i with
      | .error e => .error e
      | .ok (a, j) =>
        match ts[j]? with
        | some .semi =>
          match parseT fuel .top ts (j + 1) with
          | .error e => .error e
          | .ok (b, k) => .ok (.seq a.fstIdx b.lstIdx a b, k)
        | _ => .ok (a, j)
    | .parl =>
      match parseT fuel .atom ts i with
      | .error e => .error e
      | .ok (a, j) =>
        match ts[j]? with
        | some .star =>
          match parseT fuel .parl ts (j + 1) with
          | .error e => .error e
          | .ok (b, k) => .ok (.par a.fstIdx b.lstIdx a b, k)
        | _ => .ok (a, j)
    | .atom =>
      match ts[i]? with
      | none => .error .eof
      | some .lparen =>
        match parseT fuel .top ts (i + 1) with
        | .error e => .error e
        | .ok (t, j) =>
          match expectTok ts j .rparen with
          | .error e => .error e
          | .ok k => .ok (t, k)
      | some .kid => .ok (.id i i, i + 1)
      | some .ksw =>
        match ts[i + 1]? with
        | some .lbrack =>
          match parseNumList fuel ts (i + 2) [] with
          | .error e => .error e
          | .ok (ns, k) => .ok (.perm i (k - 1) (some ns), k)
        | _ => .ok (.perm i i none, i + 1)
      | some (.cname s) => .ok (.ref i i s, i + 1)
      | some _ => .error (.tok i)

def parseRwPart (fuel : Nat) (ts : List Tok) (i : Nat) :
    Except KErr (RwPart × Nat) :=
  match expectTok ts i .eq with
  | .error e => .error e
  | .ok j1 =>
    let holeRes : Except KErr (Nat × Nat × Option Term × Nat) :=
      match ts[j1]? with
      | some .question => .ok (j1, j1, none, j1 + 1)
      | _ =>
        match parseT fuel .top ts j1 with
        | .error e => .error e
        | .ok (t, j) => .ok (t.fstIdx, t.lstIdx, some t, j)
    match holeRes with
    | .error e => .error e
    | .ok (hf, hl, hole, j2) =>
      match expectTok ts j2 .kby with
      | .error e => .error e
      | .ok j3 =>
        match expectCName ts j3 with
        | .error e => .error e
        | .ok (rname, j4) =>
          match ts[j4]? with
          | some (.int n) => .ok (⟨i, j4, hf, hl, hole, rname, some n⟩, j4 + 1)
          | _ => .ok (⟨i, j4 - 1, hf, hl, hole, rname, none⟩, j4)

def parseRwParts (fuel : Nat) (ts : List Tok) (i : Nat) :
    Except KErr (List RwPart × Nat) :=
  match fuel with
  | 0 => .error .eof
  | fuel + 1 =>
    match ts[i]? with
    | some .eq =>
      match parseRwPart fuel ts i with
      | .error e => .error e
      | .ok (p, j) =>
        match parseRwParts fuel ts j with
        | .error e => .error e
        | .ok (ps, k) => .ok (p :: ps, k)
    | _ => .ok ([], i)

def parseStmt (fuel : Nat) (ts : List Tok) (i : Nat) : Except KErr (Stmt × Nat) :=
  match ts[i]? with
  | none => .error .eof
  | some .kgen =>
    match expectCName ts (i + 1) with
    | .error e => .error e
    | .ok (name, j1) =>
      match expectTok ts j1 .colon with
      | .error e => .error e
      | .ok j2 =>
        match expectInt ts j2 with
        | .error e => .error e
        | .ok (a, j3) =>
          match expectTok ts j3 .arrow with
          | .error e => .error e
          | .ok j4 =>
            match expectInt ts j4 with
            | .error e => .error e
            | .ok (b, j5) => .ok (.gen i (j5 - 1) name a b, j5)
  | some .klet =>
    match expectCName ts (i + 1) with
    | .error e => .error e
    | .ok (name, j1) =>
      match expectTok ts j1 .eq with
      | .error e => .error e
      | .ok j2 =>
        match parseT fuel .top ts j2 with
        | .error e => .error e
        | .ok (t, j3) => .ok (.letS i (j3 - 1) name t, j3)
  | some .krule =>
    match expectCName ts (i + 1) with
    | .error e => .error e
    | .ok (name, j1) =>
      match expectTok ts j1 .colon with
      | .error e => .error e
      | .ok j2 =>
        match parseT fuel .top ts j2 with
        | .error e => .error e
        | .ok (lhs, j3) =>
          match expectTok ts j3 .eq with
          | .error e => .error e
          | .ok j4 =>
            match parseT fuel .top ts j4 with
            | .error e => .error e
            | .ok (rhs, j5) => .ok (.ruleS i (j5 - 1) name lhs rhs, j5)
  | some .krewrite =>
    match expectCName ts (i + 1) with
    | .error e => .error e
    | .ok (name, j1) =>
      match expectTok ts j1 .colon with
      | .error e => .error e
      | .ok j2 =>
        match parseT fuel .top ts j2 with
        | .error e => .error e
        | .ok (t, j3) =>
          match ts[j3]? with
          | none => .error .eof
          | some .eq =>
            match parseRwParts fuel ts j3 with
            | .error e => .error e
            | .ok (ps, j4) => .ok (.rewriteS i (j4 - 1) name t ps, j4)
          | some _ => .error (.tok j3)
  | some _ => .error (.tok i)

def parseProgram (fuel : Nat) (ts : List Tok) (i : Nat) : Except KErr (List Stmt) :=
  match fuel with
  | 0 => .error .eof
  | fuel + 1 =>
    match ts[i]? with
    | none => .ok []
    | some _ =>
      match parseStmt fuel ts i with
      | .error e => .error e
      | .ok (s, j) =>
        match parseProgram fuel ts j with
        | .error e => .error e
        | .ok rest => .ok (s :: rest)

def dummyTok : PTok := ⟨Tok.kid, 1, 0, 0⟩

def lineAt (tbl : List PTok) (i : Nat) : Int := ((tbl[i]?).getD dummyTok).line

def startPosAt (tbl : List PTok) (i : Nat) : Nat := ((tbl[i]?).getD dummyTok).start_pos

def endPosAt (tbl : List PTok) (i : Nat) : Nat := ((tbl[i]?).getD dummyTok).end_pos

/-- `grammar.parse`: lex, then parse the token kinds.  The three failure
modes correspond to the exceptions `State.update` catches: unexpected end
of input, unexpected token (with the token's line), unexpected characters
(with the character's line). -/
def parseSource (code : String) : Except ParseErr (List PTok × List Stmt) :=
  match lex code with
  | .error e => .error e
  | .ok tbl =>
    match parseProgram (tbl.length * 10 + 32) (tbl.map (fun t => t.tok)) 0 with
    | .error .eof => .error (.eof "Unexpected end of input")
    | .error (.tok i) => .error (.tok (lineAt tbl i) "Unexpected token")
    | .ok prog => .ok (tbl, prog)

/-- The mutable state of `ChypTransformer`: the `graphs` and `rules`
symbol tables (Python dicts, i.e. insertion-ordered maps) and the growing
`errors` list.  The `rewrites` dict of the source is never written, so it
is omitted. -/
structure TState where
  graphs : List (String × AGraph)
  rules : List (String × Rule)
  errors : List (Int × String)
deriving DecidableEq

/-- Python dict assignment `d[k] = v`: overwrite in place if the key is
present, append otherwise. -/
def dictSet {α : Type} (l : List (String × α)) (k : String) (v : α) :
    List (String × α) :=
  if l.any (fun p => p.1 == k) then
    l.map (fun p => if p.1 == k then (k, v) else p)
  else l ++ [(k, v)]

/-- Python dict lookup, as an `Option`. -/
def dictGet {α : Type} (l : List (String × α)) (k : String) : Option α :=
  (l.find? (fun p => p.1 == k)).map (fun p => p.2)

/-- Bottom-up, left-to-right transformation of a term, mirroring Lark's
`Transformer` callback order: children first, then the parent callback.
`id` yields `identity()`; `perm` yields `perm([1,0])` when no index list
is given and `perm(list)` otherwise, catching `GraphError` into an
`(meta.line, message)` diagnostic; `term_ref` looks the name up in
`graphs`, recording `Undefined term: name` when absent; `par` tensors two
present operands; `seq` composes them, catching `GraphError` likewise.  A
failed subterm propagates as `none`. -/
def evalTerm (tbl : List PTok) (st : TState) : Term → TState × Option AGraph
  | .id _ _ => (st, some identity)
  | .perm fst _ idxs =>
    match (match idxs with | none => perm [1, 0] | some l => perm l) with
    | .ok g => (st, some g)
    | .error m => ({ st with errors := st.errors ++ [(lineAt tbl fst, m)] }, none)
  | .ref fst _ name =>
    match dictGet st.graphs name with
    | some g => (st, some g)
    | none =>
      ({ st with errors := st.errors ++ [(lineAt tbl fst, "Undefined term: " ++ name)] },
       none)
  | .par _ _ a b =>
    let r1 := evalTerm tbl st a
    let r2 := evalTerm tbl r1.1 b
    match r1.2, r2.2 with
    | some x, some y => (r2.1, some (tensor x y))
    | _, _ => (r2.1, none)
  | .seq fst _ a b =>
    let r1 := evalTerm tbl st a
    let r2 := evalTerm tbl r1.1 b
    match r1.2, r2.2 with
    | some x, some y =>
      match seq x y with
      | .ok g => (r2.1, some g)
      | .error m => ({ r2.1 with errors := r2.1.errors ++ [(lineAt tbl fst, m)] }, none)
    | _, _ => (r2.1, none)

/-- One source span `(start_pos, end_pos, kind, name)` as recorded in
`State.parts`. -/
abbrev Span : Type := Nat × Nat × String × String

/-- The `rewrite` callback: each `rewrite_part` contributes one span
`(start, part_end, rewrite, name:i)`, the start of the first being the
statement's start and each subsequent start the previous end; the hole
terms were transformed (with their side effects) before the callback. -/
def evalRwParts (tbl : List PTok) (st : TState) (name : String) (start : Nat)
    (k : Nat) : List RwPart → TState × List Span
  | [] => (st, [])
  | p :: rest =>
    let st1 := match p.hole with
      | some t => (evalTerm tbl st t).1
      | none => st
    let e := endPosAt tbl p.lst
    let r := evalRwParts tbl st1 name e (k + 1) rest
    (r.1, ((start, e, "rewrite", name ++ ":" ++ toString k) : Span) :: r.2)

/-- One statement, in callback order: subterms first (collecting errors),
then the statement callback, which registers the named artifact when its
ingredients are all present (`gen` always; `let` only when the term
evaluated; `rule` only when both sides evaluated and arities match,
`RuleError` becoming a diagnostic) and returns the statement's spans. -/
def evalStmt (tbl : List PTok) (st : TState) : Stmt → TState × List Span
  | .gen fst lst name arity coarity =>
    ({ st with graphs := dictSet st.graphs name (gen name arity coarity) },
     [(startPosAt tbl fst, endPosAt tbl lst, "gen", name)])
  | .letS fst lst name t =>
    let r := evalTerm tbl st t
    let sp : List Span := [(startPosAt tbl fst, endPosAt tbl lst, "let", name)]
    match r.2 with
    | some g => ({ r.1 with graphs := dictSet r.1.graphs name g }, sp)
    | none => (r.1, sp)
  | .ruleS fst lst name lt rt =>
    let r1 := evalTerm tbl st lt
    let r2 := evalTerm tbl r1.1 rt
    let sp : List Span := [(startPosAt tbl fst, endPosAt tbl lst, "rule", name)]
    match r1.2, r2.2 with
    | some l, some r =>
      match mkRule l r with
      | .ok ru => ({ r2.1 with rules := dictSet r2.1.rules name ru }, sp)
      | .error m =>
        ({ r2.1 with errors := r2.1.errors ++ [(lineAt tbl fst, m)] }, sp)
    | _, _ => (r2.1, sp)
  | .rewriteS fst _ name t parts =>
    let r := evalTerm tbl st t
    evalRwParts tbl r.1 name (startPosAt tbl fst) 0 parts

/-- The `start` callback: process the statements in order and concatenate
their span lists. -/
def evalProgram (tbl : List PTok) (st : TState) : List Stmt → TState × List Span
  | [] => (st, [])
  | s :: rest =>
    let r1 := evalStmt tbl st s
    let r2 := evalProgram tbl r1.1 rest
    (r2.1, r1.2 ++ r2.2)

/-- `ChypTransformer().transform(tree)`: a fresh transformer state, then
the bottom-up pass. -/
def transform (tbl : List PTok) (prog : List Stmt) : TState × List Span :=
  evalProgram tbl ⟨[], [], []⟩ prog

/-- `State.__init__` / the `State` class of src/chyp/state.py. -/
structure State where
  graphs : List (String × AGraph)
  rules : List (String × Rule)
  parts : List Span
  holes : List Nat
  errors : List (Int × String)
deriving DecidableEq

/-- `State.update` from src/chyp/state.py: on a successful parse, replace
`graphs`, `rules`, `parts` and `errors` wholesale with the new parse's
results; on `UnexpectedEOF` publish the single diagnostic `(-1, msg)`; on
`UnexpectedToken`/`UnexpectedCharacters` publish `(line, msg)`; in all
three failure cases every other field keeps its previous value. -/
def State.update (st : State) (code : String) : State :=
  match parseSource code with
  | .ok (tbl, prog) =>
    let r := transform tbl prog
    { graphs := r.1.graphs, rules := r.1.rules, parts := r.2,
      holes := st.holes, errors := r.1.errors }
  | .error (.eof m) => { st with errors := [(-1, m)] }
  | .error (.tok l m) => { st with errors := [(l, m)] }
  | .error (.chars l m) => { st with errors := [(l, m)] }

/-- `State.part_at` from src/chyp/state.py: the first recorded span `p`
with `p[0] <= pos and p[1] >= pos`, else `None`. -/
def State.part_at (st : State) (pos : Int) : Option Span :=
  st.parts.find? (fun p => decide ((p.1 : Int) ≤ pos) && decide (pos ≤ (p.2.1 : Int)))

/-- The single diagnostic `State.update` publishes for each of the three
parse failures: line `-1` for unexpected end of input, the reported line
otherwise. -/
def diagOf : ParseErr → Int × String
  | .eof m => (-1, m)
  | .tok l m => (l, m)
  | .chars l m => (l, m)

/-- A nonempty sample state, used to witness preservation claims. -/
def sampleState : State :=
  ⟨[("q", identity)], [], [(0, 1, "gen", "q")], [], [(5, "old")]⟩

/-- C2: when the parse of the source fails with a lexical or grammar
error, `State.update` leaves `graphs`, `rules` and `parts` exactly as they
were and publishes exactly one `(line, message)` diagnostic, whose line is
`-1` in the unexpected-end-of-input case. -/
theorem c2_parse_failure_preserves_state (st : State) (code : String) (e : ParseErr)
    (h : parseSource code = .error e) :
    (st.update code).graphs = st.graphs ∧
    (st.update code).rules = st.rules ∧
    (st.update code).parts = st.parts ∧
    (st.update code).errors = [diagOf e] ∧
    (∀ m, e = .eof m → diagOf e = (-1, m)) := by
  cases e with
  | eof m =>
    have hu : st.update code = { st with errors := [(-1, m)] } := by
      unfold State.update; rw [h]
    rw [hu]
    exact ⟨rfl, rfl, rfl, rfl, fun m' hm => by cases hm; rfl⟩
  | tok l m =>
    have hu : st.update code = { st with errors := [(l, m)] } := by
      unfold State.update; rw [h]
    rw [hu]
    exact ⟨rfl, rfl, rfl, rfl, fun m' hm => by cases hm⟩
  | chars l m =>
    have hu : st.update code = { st with errors := [(l, m)] } := by
      unfold State.update; rw [h]
    rw [hu]
    exact ⟨rfl, rfl, rfl, rfl, fun m' hm => by cases hm⟩

theorem c2_parse_failure_preserves_state_witness :
    (sampleState.update "gen f :").graphs = sampleState.graphs ∧
    (sampleState.update "gen f :").rules = sampleState.rules ∧
    (sampleState.update "gen f :").parts = sampleState.parts ∧
    (sampleState.update "gen f :").errors
      = [diagOf (ParseErr.eof "Unexpected end of input")] ∧
    (∀ m, ParseErr.eof "Unexpected end of input" = ParseErr.eof m →
      diagOf (ParseErr.eof "Unexpected end of input") = (-1, m)) :=
  c2_parse_failure_preserves_state sampleState "gen f :"
    (ParseErr.eof "Unexpected end of input") rfl

/-- C3: when the source parses, `State.update` replaces `graphs`, `rules`,
`parts` and `errors` entirely with the new parse's results (semantic
errors included): the outcome does not depend on the previous state, so no
previous binding survives unless the new text re-creates it. -/
theorem c3_success_replaces_state (st1 st2 : State) (code : String)
    (tbl : List PTok) (prog : List Stmt) (h : parseSource code = .ok (tbl, prog)) :
    (st1.update code).graphs = (transform tbl prog).1.graphs ∧
    (st1.update code).rules = (transform tbl prog).1.rules ∧
    (st1.update code).parts = (transform tbl prog).2 ∧
    (st1.update code).errors = (transform tbl prog).1.errors ∧
    (st1.update code).graphs = (st2.update code).graphs ∧
    (st1.update code).rules = (st2.update code).rules ∧
    (st1.update code).parts = (st2.update code).parts ∧
    (st1.update code).errors = (st2.update code).errors := by
  have hu : ∀ s : State, s.update code =
      { graphs := (transform tbl prog).1.graphs, rules := (transform tbl prog).1.rules,
        parts := (transform tbl prog).2, holes := s.holes,
        errors := (transform tbl prog).1.errors } := by
    intro s; unfold State.update; rw [h]
  rw [hu st1, hu st2]
  exact ⟨rfl, rfl, rfl, rfl, rfl, rfl, rfl, rfl⟩

theorem c3_success_replaces_state_witness :
    (sampleState.update "gen f : 1 -> 1").graphs
      = ((⟨[], [], [], [], []⟩ : State).update "gen f : 1 -> 1").graphs ∧
    (sampleState.update "gen f : 1 -> 1").rules
      = ((⟨[], [], [], [], []⟩ : State).update "gen f : 1 -> 1").rules ∧
    (sampleState.update "gen f : 1 -> 1").parts
      = ((⟨[], [], [], [], []⟩ : State).update "gen f : 1 -> 1").parts ∧
    (sampleState.update "gen f : 1 -> 1").errors
      = ((⟨[], [], [], [], []⟩ : State).update "gen f : 1 -> 1").errors := by
  obtain ⟨⟨tbl, prog⟩, hr⟩ : ∃ r, parseSource "gen f : 1 -> 1" = .ok r := ⟨_, rfl⟩
  obtain ⟨-, -, -, -, h5, h6, h7, h8⟩ :=
    c3_success_replaces_state sampleState ⟨[], [], [], [], []⟩ "gen f : 1 -> 1" tbl prog hr
  exact ⟨h5, h6, h7, h8⟩

/-- C4: updating any state with the source `let x = y` (with `y` an
undefined term reference) publishes exactly one semantic error naming `y`
with its line number 1, registers no graph at all (in particular none for
`x`), and still records the span `(0, 9, let, x)` covering the
statement. -/
theorem c4_let_undefined_term (st : State) :
    dictGet (st.update "let x = y").graphs "x" = none ∧
    (st.update "let x = y").graphs = [] ∧
    (st.update "let x = y").errors = [(1, "Undefined term: y")] ∧
    (st.update "let x = y").parts = [(0, 9, "let", "x")] := by
  have hu : st.update "let x = y" =
      { graphs := [], rules := [], parts := [(0, 9, "let", "x")],
        holes := st.holes, errors := [(1, "Undefined term: y")] } := by
    unfold State.update; rfl
  rw [hu]
  exact ⟨rfl, rfl, rfl, rfl⟩

theorem c4_let_undefined_term_witness :
    dictGet (sampleState.update "let x = y").graphs "x" = none ∧
    (sampleState.update "let x = y").graphs = [] ∧
    (sampleState.update "let x = y").errors = [(1, "Undefined term: y")] ∧
    (sampleState.update "let x = y").parts = [(0, 9, "let", "x")] :=
  c4_let_undefined_term sampleState

/-- `pos` lies in the closed interval `[start, end]` of a span. -/
def containsPos (p : Span) (pos : Int) : Prop :=
  (p.1 : Int) ≤ pos ∧ pos ≤ (p.2.1 : Int)

theorem find?_first {α : Type} (q : α → Bool) :
    ∀ (l : List α) (a : α), l.find? q = some a →
      q a = true ∧ ∃ l1 l2, l = l1 ++ a :: l2 ∧ ∀ x ∈ l1, q x = false := by
  intro l
  induction l with
  | nil => intro a h; cases h
  | cons x xs ih =>
    intro a h
    by_cases hx : q x = true
    · rw [List.find?_cons_of_pos _ hx] at h
      cases h
      exact ⟨hx, [], xs, rfl, by simp⟩
    · rw [List.find?_cons_of_neg _ hx] at h
      obtain ⟨hq, l1, l2, heq, hl1⟩ := ih a h
      refine ⟨hq, x :: l1, l2, by rw [heq, List.cons_append], ?_⟩
      intro z hz
      rcases List.mem_cons.mp hz with rfl | hz
      · exact Bool.eq_false_iff.mpr (fun hzx => hx hzx)
      · exact hl1 z hz

/-- C7: `part_at(pos)` returns the first span of `parts`, in list order,
whose closed interval `[start, end]` contains `pos`, and `None` when no
recorded span contains `pos`. -/
theorem c7_part_at_first_containing (st : State) (pos : Int) :
    (∀ p, st.part_at pos = some p →
      containsPos p pos ∧
      ∃ l1 l2, st.parts = l1 ++ p :: l2 ∧ ∀ q ∈ l1, ¬ containsPos q pos) ∧
    (st.part_at pos = none → ∀ q ∈ st.parts, ¬ containsPos q pos) := by
  constructor
  · intro p hp
    obtain ⟨hq, l1, l2, heq, hl1⟩ := find?_first _ st.parts p hp
    refine ⟨?_, l1, l2, heq, ?_⟩
    · simpa [containsPos, Bool.and_eq_true, decide_eq_true_eq] using hq
    · intro q hq2 hcontra
      have hfalse := hl1 q hq2
      rw [show (decide ((q.1 : Int) ≤ pos) && decide (pos ≤ (q.2.1 : Int))) = true by
        simp [hcontra.1, hcontra.2]] at hfalse
      cases hfalse
  · intro hnone q hq hcontra
    have := List.find?_eq_none.mp hnone q hq
    apply this
    simp [hcontra.1, hcontra.2]

/-- Sample span table: two overlapping spans, the first containing
offset 4. -/
def sampleParts : List Span := [(0, 5, "gen", "a"), (3, 8, "let", "b")]

theorem c7_part_at_first_containing_witness :
    containsPos ((0, 5, "gen", "a") : Span) 4 ∧
    ∃ l1 l2 : List Span, ((⟨[], [], sampleParts, [], []⟩ : State)).parts
        = l1 ++ ((0, 5, "gen", "a") : Span) :: l2 ∧
      ∀ q ∈ l1, ¬ containsPos q 4 :=
  (c7_part_at_first_containing ⟨[], [], sampleParts, [], []⟩ 4).1
    ((0, 5, "gen", "a") : Span) rfl

/-- C9: `sw` without a bracketed list denotes `perm([1,0])` (the swap);
`sw` with an invalid index list (out of range or repeated) raises
`GraphError`, which the `perm` callback catches into a single
`(line, message)` diagnostic while yielding no graph, and — as the
concrete two-statement source shows — the surrounding parse continues:
the offending `let` registers no graph but the following `gen` statement
is still processed and its span recorded. -/
theorem c9_sw_perm (tblA : List PTok) (stA : TState) (fstA lstA : Nat) :
    (∃ g, perm [1, 0] = .ok g ∧
      evalTerm tblA stA (.perm fstA lstA none) = (stA, some g)) ∧
    (∀ l, ¬ ((∀ i ∈ l, i < l.length) ∧ l.Nodup) →
      evalTerm tblA stA (.perm fstA lstA (some l)) =
        ({ stA with errors := stA.errors ++ [(lineAt tblA fstA, "invalid permutation")] },
         none)) ∧
    ((State.update ⟨[], [], [], [], []⟩ "let a = sw[0,0]\ngen g : 1 -> 1").errors
        = [(1, "invalid permutation")] ∧
      dictGet (State.update ⟨[], [], [], [], []⟩
        "let a = sw[0,0]\ngen g : 1 -> 1").graphs "a" = none ∧
      dictGet (State.update ⟨[], [], [], [], []⟩
        "let a = sw[0,0]\ngen g : 1 -> 1").graphs "g" = some (gen "g" 1 1) ∧
      (State.update ⟨[], [], [], [], []⟩ "let a = sw[0,0]\ngen g : 1 -> 1").parts
        = [(0, 15, "let", "a"), (16, 30, "gen", "g")]) := by
  refine ⟨⟨_, rfl, rfl⟩, ?_, rfl, rfl, rfl, rfl⟩
  intro l hl
  have hperm : perm l = .error "invalid permutation" := by
    unfold perm; rw [if_neg hl]
  simp only [evalTerm, hperm]

theorem c9_sw_perm_witness :
    (∃ g, perm [1, 0] = .ok g ∧
      evalTerm [] ⟨[], [], []⟩ (.perm 0 0 none) = (⟨[], [], []⟩, some g)) ∧
    evalTerm [] ⟨[], [], []⟩ (.perm 0 0 (some [0, 0])) =
      ({ (⟨[], [], []⟩ : TState) with
          errors := (⟨[], [], []⟩ : TState).errors ++ [(lineAt [] 0, "invalid permutation")] },
       none) := by
  obtain ⟨ha, hb, -⟩ := c9_sw_perm [] ⟨[], [], []⟩ 0 0
  exact ⟨ha, hb [0, 0] (by decide)⟩

/-- A token in progress with the positions forgotten. -/
inductive CurK where
  | ident (acc : List Char)
  | num (acc : List Char)
  | dash
deriving DecidableEq

def curKOf : Option CurTok → Option CurK
  | none => none
  | some (.ident _ _ acc) => some (.ident acc)
  | some (.num _ _ acc) => some (.num acc)
  | some (.dash _ _) => some (.dash)

/-- Forget positions in a lexer result, keeping only the token kinds and
whether the lexer failed. -/
def kindsE : Except ParseErr (List PTok) → Except Unit (List Tok)
  | .error _ => .error ()
  | .ok ts => .ok (ts.map PTok.tok)

def kfinish : Option CurK → Except Unit (List Tok)
  | none => .ok []
  | some (.ident acc) => .ok [classifyWord (String.mk acc)]
  | some (.num acc) => .ok [.int (digitsToNat acc)]
  | some .dash => .error ()

def kstart (c : Char) : Except Unit (List Tok × Option CurK) :=
  if c = ' ' then .ok ([], none)
  else if c = '\n' then .ok ([], none)
  else if isIdentStart c then .ok ([], some (.ident [c]))
  else if c.isDigit then .ok ([], some (.num [c]))
  else if c = '-' then .ok ([], some .dash)
  else
    match symOf c with
    | some t => .ok ([t], none)
    | none => .error ()

def kstep (cur : Option CurK) (c : Char) : Except Unit (List Tok × Option CurK) :=
  match cur with
  | none => kstart c
  | some (.ident acc) =>
    if isIdentChar c then .ok ([], some (.ident (acc ++ [c])))
    else
      match kstart c with
      | .error e => .error e
      | .ok (ts, cur2) => .ok (classifyWord (String.mk acc) :: ts, cur2)
  | some (.num acc) =>
    if c.isDigit then .ok ([], some (.num (acc ++ [c])))
    else
      match kstart c with
      | .error e => .error e
      | .ok (ts, cur2) => .ok (.int (digitsToNat acc) :: ts, cur2)
  | some .dash =>
    if c = '>' then .ok ([.arrow], none)
    else .error ()

/-- The position-free lexer. -/
def klex : List Char → Option CurK → Except Unit (List Tok)
  | [], cur => kfinish cur
  | c :: cs, cur =>
    match kstep cur c with
    | .error _ => .error ()
    | .ok (ts, cur2) =>
      match klex cs cur2 with
      | .error _ => .error ()
      | .ok ts2 => .ok (ts ++ ts2)

def stepKindsOf :
    Except ParseErr (List PTok × Option CurTok × Int) →
      Except Unit (List Tok × Option CurK)
  | .error _ => .error ()
  | .ok (ts, cur2, _) => .ok (ts.map PTok.tok, curKOf cur2)

theorem startTok_kinds (c : Char) (pos : Nat) (line : Int) :
    stepKindsOf (startTok c pos line) = kstart c := by
  unfold startTok kstart
  split_ifs <;> try rfl
  cases symOf c <;> rfl

theorem lexStep_kinds (cur : Option CurTok) (c : Char) (pos : Nat) (line : Int) :
    stepKindsOf (lexStep cur c pos line) = kstep (curKOf cur) c := by
  cases cur with
  | none => exact startTok_kinds c pos line
  | some ct =>
    cases ct with
    | ident l s acc =>
      show stepKindsOf (lexStep (some (.ident l s acc)) c pos line)
          = kstep (some (.ident acc)) c
      unfold lexStep kstep
      by_cases hc : isIdentChar c = true
      · simp [hc, stepKindsOf, curKOf]
      · simp only [hc, if_false, Bool.false_eq_true]
        rw [← startTok_kinds c pos line]
        cases hs : startTok c pos line with
        | error e => simp [hs, stepKindsOf]
        | ok r => obtain ⟨ts, cur2, line2⟩ := r; simp [hs, stepKindsOf]
    | num l s acc =>
      show stepKindsOf (lexStep (some (.num l s acc)) c pos line)
          = kstep (some (.num acc)) c
      unfold lexStep kstep
      by_cases hc : c.isDigit = true
      · simp [hc, stepKindsOf, curKOf]
      · simp only [hc, if_false, Bool.false_eq_true]
        rw [← startTok_kinds c pos line]
        cases hs : startTok c pos line with
        | error e => simp [hs, stepKindsOf]
        | ok r => obtain ⟨ts, cur2, line2⟩ := r; simp [hs, stepKindsOf]
    | dash l s =>
      show stepKindsOf (lexStep (some (.dash l s)) c pos line)
          = kstep (some .dash) c
      unfold lexStep kstep
      by_cases hc : c = '>'
      · simp [hc, stepKindsOf, curKOf]
      · simp [hc, stepKindsOf]

theorem finishCur_kinds (cur : Option CurTok) (pos : Nat) :
    kindsE (finishCur cur pos) = kfinish (curKOf cur) := by
  cases cur with
  | none => rfl
  | some ct => cases ct <;> rfl

theorem lexRun_kinds (cs : List Char) :
    ∀ pos line cur, kindsE (lexRun cs pos line cur) = klex cs (curKOf cur) := by
  induction cs with
  | nil => intro pos line cur; exact finishCur_kinds cur pos
  | cons c cs ih =>
    intro pos line cur
    show kindsE
        (match lexStep cur c pos line with
          | .error e => .error e
          | .ok (ts, cur2, line2) =>
            match lexRun cs (pos + 1) line2 cur2 with
            | .error e => .error e
            | .ok ts2 => .ok (ts ++ ts2)) =
      match kstep (curKOf cur) c with
      | .error _ => .error ()
      | .ok (ts, cur2) =>
        match klex cs cur2 with
        | .error _ => .error ()
        | .ok ts2 => .ok (ts ++ ts2)
    rw [← lexStep_kinds cur c pos line]
    cases hs : lexStep cur c pos line with
    | error e => simp [stepKindsOf, kindsE]
    | ok r =>
      obtain ⟨ts, cur2, line2⟩ := r
      simp only [stepKindsOf]
      rw [← ih (pos + 1) line2 cur2]
      cases hr : lexRun cs (pos + 1) line2 cur2 with
      | error e => simp [kindsE]
      | ok ts2 => simp [kindsE]

/-- A whitespace character the grammar ignores. -/
def isWs (c : Char) : Prop := c = ' ' ∨ c = '\n'

instance (c : Char) : Decidable (isWs c) := by unfold isWs; infer_instance

theorem kstart_ws (c : Char) (hc : isWs c) : kstart c = .ok ([], none) := by
  rcases hc with rfl | rfl <;> rfl

theorem klex_ws_prefix (w : List Char) (hw : ∀ c ∈ w, isWs c) (cs : List Char) :
    klex (w ++ cs) none = klex cs none := by
  induction w with
  | nil => rfl
  | cons c w ih =>
    have hc : isWs c := hw c (List.mem_cons_self c w)
    have hw' : ∀ x ∈ w, isWs x := fun x hx => hw x (List.mem_cons_of_mem c hx)
    show (match kstep none c with
      | .error _ => .error ()
      | .ok (ts, cur2) =>
        match klex (w ++ cs) cur2 with
        | .error _ => .error ()
        | .ok ts2 => .ok (ts ++ ts2)) = klex cs none
    show (match kstart c with
      | .error _ => .error ()
      | .ok (ts, cur2) =>
        match klex (w ++ cs) cur2 with
        | .error _ => .error ()
        | .ok ts2 => .ok (ts ++ ts2)) = klex cs none
    rw [kstart_ws c hc]
    dsimp only
    rw [ih hw']
    cases klex cs none <;> rfl

/-- Concatenate two position-free lexer results (failure absorbs). -/
def combineK (a b : Except Unit (List Tok)) : Except Unit (List Tok) :=
  match a, b with
  | .ok ts1, .ok ts2 => .ok (ts1 ++ ts2)
  | _, _ => .error ()

theorem klex_split (xs : List Char) :
    ∀ cur r rs, isWs r →
      klex (xs ++ r :: rs) cur = combineK (klex xs cur) (klex rs none) := by
  induction xs with
  | nil =>
    intro cur r rs hr
    show (match kstep cur r with
      | .error _ => .error ()
      | .ok (ts, cur2) =>
        match klex rs cur2 with
        | .error _ => .error ()
        | .ok ts2 => .ok (ts ++ ts2)) = combineK (kfinish cur) (klex rs none)
    cases cur with
    | none =>
      rw [show kstep none r = kstart r from rfl, kstart_ws r hr]
      dsimp only
      cases hk : klex rs none <;> simp [combineK, kfinish]
    | some ck =>
      cases ck with
      | ident acc =>
        have hident : isIdentChar r = false := by
          rcases hr with rfl | rfl <;> rfl
        show (match
            (if isIdentChar r then Except.ok ([], some (CurK.ident (acc ++ [r])))
             else
              match kstart r with
              | .error e => .error e
              | .ok (ts, cur2) => .ok (classifyWord (String.mk acc) :: ts, cur2)) with
          | .error _ => .error ()
          | .ok (ts, cur2) =>
            match klex rs cur2 with
            | .error _ => .error ()
            | .ok ts2 => .ok (ts ++ ts2)) =
          combineK (.ok [classifyWord (String.mk acc)]) (klex rs none)
        rw [hident, kstart_ws r hr]
        simp only [Bool.false_eq_true, if_false]
        cases hk : klex rs none <;> simp [combineK]
      | num acc =>
        have hdig : r.isDigit = false := by
          rcases hr with rfl | rfl <;> rfl
        show (match
            (if r.isDigit then Except.ok ([], some (CurK.num (acc ++ [r])))
             else
              match kstart r with
              | .error e => .error e
              | .ok (ts, cur2) => .ok (Tok.int (digitsToNat acc) :: ts, cur2)) with
          | .error _ => .error ()
          | .ok (ts, cur2) =>
            match klex rs cur2 with
            | .error _ => .error ()
            | .ok ts2 => .ok (ts ++ ts2)) =
          combineK (.ok [Tok.int (digitsToNat acc)]) (klex rs none)
        rw [hdig, kstart_ws r hr]
        simp only [Bool.false_eq_true, if_false]
        cases hk : klex rs none <;> simp [combineK]
      | dash =>
        have hgt : r ≠ '>' := by
          rcases hr with rfl | rfl <;> decide
        show (match
            (if r = '>' then Except.ok ([Tok.arrow], none) else Except.error ()) with
          | .error _ => .error ()
          | .ok (ts, cur2) =>
            match klex rs cur2 with
            | .error _ => .error ()
            | .ok ts2 => .ok (ts ++ ts2)) =
          combineK (.error ()) (klex rs none)
        rw [if_neg hgt]
        rfl
  | cons x xs ih =>
    intro cur r rs hr
    show (match kstep cur x with
      | .error _ => .error ()
      | .ok (ts, cur2) =>
        match klex (xs ++ r :: rs) cur2 with
        | .error _ => .error ()
        | .ok ts2 => .ok (ts ++ ts2)) =
      combineK
        (match kstep cur x with
          | .error _ => .error ()
          | .ok (ts, cur2) =>
            match klex xs cur2 with
            | .error _ => .error ()
            | .ok ts2 => .ok (ts ++ ts2))
        (klex rs none)
    cases hstep : kstep cur x with
    | error e => rfl
    | ok p =>
      obtain ⟨ts, cur2⟩ := p
      dsimp only
      rw [ih cur2 r rs hr]
      cases klex xs cur2 with
      | error e => rfl
      | ok ts1 =>
        cases klex rs none with
        | error e => rfl
        | ok ts2 => simp [combineK, List.append_assoc]

/-- A source text assembled from token-bearing pieces and the separators
between them (`interleave [p0, p1, p2] [s0, s1] = p0 ++ s0 ++ p1 ++ s1 ++ p2`). -/
def interleave : List String → List String → String
  | [], _ => ""
  | [p], _ => p
  | p :: ps, [] => p ++ interleave ps []
  | p :: ps, sep :: ss => p ++ (sep ++ interleave ps ss)

/-- Lex each piece on its own and concatenate the token kinds. -/
def klexPieces : List String → Except Unit (List Tok)
  | [] => .ok []
  | [p] => klex p.data none
  | p :: ps => combineK (klex p.data none) (klexPieces ps)

/-- A non-empty separator made only of the two ignored characters. -/
def wsSep (s : String) : Prop := s ≠ "" ∧ ∀ c ∈ s.data, isWs c

theorem klex_interleave (pieces : List String) :
    ∀ seps, (∀ s ∈ seps, wsSep s) → seps.length + 1 = pieces.length →
      klex (interleave pieces seps).data none = klexPieces pieces := by
  induction pieces with
  | nil => intro seps _ hlen; cases hlen
  | cons p ps ih =>
    intro seps hseps hlen
    cases ps with
    | nil =>
      cases seps with
      | nil => rfl
      | cons s ss => simp at hlen
    | cons q ps' =>
      cases seps with
      | nil => simp at hlen
      | cons s ss =>
        have hs : wsSep s := hseps s (List.mem_cons_self s ss)
        have hss : ∀ x ∈ ss, wsSep x := fun x hx => hseps x (List.mem_cons_of_mem s hx)
        have hlen' : ss.length + 1 = (q :: ps').length := by
          simpa using hlen
        obtain ⟨hne, hws⟩ := hs
        obtain ⟨r, rtl, hrs⟩ : ∃ r rtl, s.data = r :: rtl := by
          cases hsd : s.data with
          | nil =>
            exact absurd (by
              cases s with
              | mk l => cases l with
                | nil => rfl
                | cons a b => simp at hsd) hne
          | cons r rtl => exact ⟨r, rtl, rfl⟩
        have hr : isWs r := hws r (by rw [hrs]; exact List.mem_cons_self r rtl)
        have hrtl : ∀ c ∈ rtl, isWs c := fun c hc =>
          hws c (by rw [hrs]; exact List.mem_cons_of_mem r hc)
        show klex (interleave (p :: q :: ps') (s :: ss)).data none = _
        have hdata : (interleave (p :: q :: ps') (s :: ss)).data
            = p.data ++ (r :: (rtl ++ (interleave (q :: ps') ss).data)) := by
          show (p ++ (s ++ interleave (q :: ps') ss)).data = _
          rw [String.data_append, String.data_append, hrs]
          simp
        rw [hdata, klex_split p.data none r (rtl ++ (interleave (q :: ps') ss).data) hr,
          klex_ws_prefix rtl hrtl, ih ss hss hlen']
        rfl

/-- Transformer states that agree on everything except the line numbers
attached to diagnostics. -/
def TRel (a b : TState) : Prop :=
  a.graphs = b.graphs ∧ a.rules = b.rules ∧
  a.errors.map Prod.snd = b.errors.map Prod.snd

theorem evalTerm_congr (tbl1 tbl2 : List PTok) (t : Term) :
    ∀ st1 st2, TRel st1 st2 →
      TRel (evalTerm tbl1 st1 t).1 (evalTerm tbl2 st2 t).1 ∧
      (evalTerm tbl1 st1 t).2 = (evalTerm tbl2 st2 t).2 := by
  induction t with
  | id f l =>
    intro st1 st2 h
    exact ⟨h, rfl⟩
  | perm f l idxs =>
    intro st1 st2 h
    obtain ⟨hg, hr, he⟩ := h
    cases idxs with
    | none =>
      cases hp : perm [1, 0] with
      | ok g =>
        simp only [evalTerm, hp]
        exact ⟨⟨hg, hr, he⟩, trivial⟩
      | error m =>
        simp only [evalTerm, hp]
        exact ⟨⟨hg, hr, by simp [he]⟩, trivial⟩
    | some ns =>
      cases hp : perm ns with
      | ok g =>
        simp only [evalTerm, hp]
        exact ⟨⟨hg, hr, he⟩, trivial⟩
      | error m =>
        simp only [evalTerm, hp]
        exact ⟨⟨hg, hr, by simp [he]⟩, trivial⟩
  | ref f l name =>
    intro st1 st2 h
    obtain ⟨hg, hr, he⟩ := h
    cases hd : dictGet st2.graphs name with
    | some g =>
      simp only [evalTerm, hg, hd]
      exact ⟨⟨hg, hr, he⟩, trivial⟩
    | none =>
      simp only [evalTerm, hg, hd]
      exact ⟨⟨rfl, hr, by simp [he]⟩, trivial⟩
  | par f l a b ihA ihB =>
    intro st1 st2 h
    obtain ⟨hA1, hA2⟩ := ihA st1 st2 h
    obtain ⟨hB1, hB2⟩ := ihB (evalTerm tbl1 st1 a).1 (evalTerm tbl2 st2 a).1 hA1
    simp only [evalTerm]
    rw [hA2, hB2]
    cases hx : (evalTerm tbl2 st2 a).2 with
    | none =>
      simp only [hx]
      exact ⟨hB1, trivial⟩
    | some x =>
      cases hy : (evalTerm tbl2 (evalTerm tbl2 st2 a).1 b).2 with
      | none =>
        simp only [hy]
        exact ⟨hB1, trivial⟩
      | some y =>
        simp only [hy]
        exact ⟨hB1, trivial⟩
  | seq f l a b ihA ihB =>
    intro st1 st2 h
    obtain ⟨hA1, hA2⟩ := ihA st1 st2 h
    obtain ⟨hB1, hB2⟩ := ihB (evalTerm tbl1 st1 a).1 (evalTerm tbl2 st2 a).1 hA1
    obtain ⟨hBg, hBr, hBe⟩ := hB1
    simp only [evalTerm]
    rw [hA2, hB2]
    cases hx : (evalTerm tbl2 st2 a).2 with
    | none =>
      simp only [hx]
      exact ⟨⟨hBg, hBr, hBe⟩, trivial⟩
    | some x =>
      cases hy : (evalTerm tbl2 (evalTerm tbl2 st2 a).1 b).2 with
      | none =>
        simp only [hy]
        exact ⟨⟨hBg, hBr, hBe⟩, trivial⟩
      | some y =>
        simp only [hy]
        cases hs : seq x y with
        | ok g =>
          simp only [hs]
          exact ⟨⟨hBg, hBr, hBe⟩, trivial⟩
        | error m =>
          simp only [hs]
          exact ⟨⟨hBg, hBr, by simp [hBe]⟩, trivial⟩

/-- The kind/name projection of a span list: what survives a change of
source positions. -/
def spansKN (l : List Span) : List (String × String) := l.map (fun p => p.2.2)

theorem evalRwParts_congr (tbl1 tbl2 : List PTok) (parts : List RwPart) :
    ∀ st1 st2 name s1 s2 k, TRel st1 st2 →
      TRel (evalRwParts tbl1 st1 name s1 k parts).1
          (evalRwParts tbl2 st2 name s2 k parts).1 ∧
      spansKN (evalRwParts tbl1 st1 name s1 k parts).2
        = spansKN (evalRwParts tbl2 st2 name s2 k parts).2 := by
  induction parts with
  | nil =>
    intro st1 st2 name s1 s2 k h
    exact ⟨h, rfl⟩
  | cons p rest ih =>
    intro st1 st2 name s1 s2 k h
    have hstep : TRel
        (match p.hole with
          | some t => (evalTerm tbl1 st1 t).1
          | none => st1)
        (match p.hole with
          | some t => (evalTerm tbl2 st2 t).1
          | none => st2) := by
      cases p.hole with
      | none => exact h
      | some t => exact (evalTerm_congr tbl1 tbl2 t st1 st2 h).1
    obtain ⟨h1, h2⟩ := ih _ _ name (endPosAt tbl1 p.lst) (endPosAt tbl2 p.lst) (k + 1) hstep
    simp only [evalRwParts]
    exact ⟨h1, by simpa [spansKN] using h2⟩

theorem evalStmt_congr (tbl1 tbl2 : List PTok) (s : Stmt) (st1 st2 : TState)
    (h : TRel st1 st2) :
    TRel (evalStmt tbl1 st1 s).1 (evalStmt tbl2 st2 s).1 ∧
    spansKN (evalStmt tbl1 st1 s).2 = spansKN (evalStmt tbl2 st2 s).2 := by
  obtain ⟨hg, hr, he⟩ := h
  cases s with
  | gen f l name arity coarity =>
    simp only [evalStmt]
    exact ⟨⟨by rw [hg], hr, he⟩, rfl⟩
  | letS f l name t =>
    obtain ⟨⟨hg1, hr1, he1⟩, h2⟩ := evalTerm_congr tbl1 tbl2 t st1 st2 ⟨hg, hr, he⟩
    simp only [evalStmt]
    rw [h2]
    cases hx : (evalTerm tbl2 st2 t).2 with
    | none =>
      simp only [hx]
      exact ⟨⟨hg1, hr1, he1⟩, rfl⟩
    | some g =>
      simp only [hx]
      exact ⟨⟨by rw [hg1], hr1, he1⟩, rfl⟩
  | ruleS f l name lt rt =>
    obtain ⟨hA1, hA2⟩ := evalTerm_congr tbl1 tbl2 lt st1 st2 ⟨hg, hr, he⟩
    obtain ⟨⟨hg1, hr1, he1⟩, h2⟩ :=
      evalTerm_congr tbl1 tbl2 rt (evalTerm tbl1 st1 lt).1 (evalTerm tbl2 st2 lt).1 hA1
    simp only [evalStmt]
    rw [hA2, h2]
    cases hx : (evalTerm tbl2 st2 lt).2 with
    | none =>
      simp only [hx]
      exact ⟨⟨hg1, hr1, he1⟩, rfl⟩
    | some x =>
      cases hy : (evalTerm tbl2 (evalTerm tbl2 st2 lt).1 rt).2 with
      | none =>
        simp only [hy]
        exact ⟨⟨hg1, hr1, he1⟩, rfl⟩
      | some y =>
        simp only [hy]
        cases hs : mkRule x y with
        | ok ru =>
          simp only [hs]
          exact ⟨⟨hg1, by rw [hr1], he1⟩, rfl⟩
        | error m =>
          simp only [hs]
          exact ⟨⟨hg1, hr1, by simp [he1]⟩, rfl⟩
  | rewriteS f l name t parts =>
    obtain ⟨hA1, -⟩ := evalTerm_congr tbl1 tbl2 t st1 st2 ⟨hg, hr, he⟩
    simp only [evalStmt]
    exact evalRwParts_congr tbl1 tbl2 parts _ _ name
      (startPosAt tbl1 f) (startPosAt tbl2 f) 0 hA1

theorem evalProgram_congr (tbl1 tbl2 : List PTok) (prog : List Stmt) :
    ∀ st1 st2, TRel st1 st2 →
      TRel (evalProgram tbl1 st1 prog).1 (evalProgram tbl2 st2 prog).1 ∧
      spansKN (evalProgram tbl1 st1 prog).2 = spansKN (evalProgram tbl2 st2 prog).2 := by
  induction prog with
  | nil =>
    intro st1 st2 h
    exact ⟨h, rfl⟩
  | cons s rest ih =>
    intro st1 st2 h
    obtain ⟨h1, h2⟩ := evalStmt_congr tbl1 tbl2 s st1 st2 h
    obtain ⟨h3, h4⟩ := ih (evalStmt tbl1 st1 s).1 (evalStmt tbl2 st2 s).1 h1
    simp only [evalProgram]
    refine ⟨h3, ?_⟩
    simp only [spansKN, List.map_append] at h2 h4 ⊢
    rw [h2, h4]

theorem transform_congr (tbl1 tbl2 : List PTok) (prog : List Stmt) :
    TRel (transform tbl1 prog).1 (transform tbl2 prog).1 ∧
    spansKN (transform tbl1 prog).2 = spansKN (transform tbl2 prog).2 :=
  evalProgram_congr tbl1 tbl2 prog ⟨[], [], []⟩ ⟨[], [], []⟩ ⟨rfl, rfl, rfl⟩

/-- Whether a parse succeeded. -/
def isOkE {α : Type} (r : Except ParseErr α) : Bool :=
  match r with
  | .ok _ => true
  | .error _ => false

theorem lex_kinds (code : String) : kindsE (lex code) = klex code.data none :=
  lexRun_kinds code.data 0 1 none

theorem parseSource_congr (code1 code2 : String)
    (hk : klex code1.data none = klex code2.data none) :
    (isOkE (parseSource code1) = isOkE (parseSource code2)) ∧
    (∀ ta pa tb pb, parseSource code1 = .ok (ta, pa) →
      parseSource code2 = .ok (tb, pb) → pa = pb) := by
  have h1 : kindsE (lex code1) = kindsE (lex code2) := by
    rw [lex_kinds, lex_kinds, hk]
  cases hl1 : lex code1 with
  | error e1 =>
    cases hl2 : lex code2 with
    | error e2 =>
      constructor
      · simp [parseSource, hl1, hl2, isOkE]
      · intro ta pa tb pb hpa hpb
        simp [parseSource, hl1] at hpa
    | ok tbl2 =>
      rw [hl1, hl2] at h1
      simp [kindsE] at h1
  | ok tbl1 =>
    cases hl2 : lex code2 with
    | error e2 =>
      rw [hl1, hl2] at h1
      simp [kindsE] at h1
    | ok tbl2 =>
      rw [hl1, hl2] at h1
      simp only [kindsE, Except.ok.injEq] at h1
      have hlen : tbl1.length = tbl2.length := by
        have h2 := congrArg List.length h1
        simpa using h2
      have hsame : parseProgram (tbl1.length * 10 + 32) (tbl1.map PTok.tok) 0
          = parseProgram (tbl2.length * 10 + 32) (tbl2.map PTok.tok) 0 := by
        rw [h1, hlen]
      constructor
      · simp only [parseSource, hl1, hl2]
        rw [hsame]
        cases hp : parseProgram (tbl2.length * 10 + 32) (tbl2.map PTok.tok) 0 with
        | error e => cases e <;> rfl
        | ok prog => rfl
      · intro ta pa tb pb hpa hpb
        simp only [parseSource, hl1, hl2] at hpa hpb
        rw [hsame] at hpa
        cases hp : parseProgram (tbl2.length * 10 + 32) (tbl2.map PTok.tok) 0 with
        | error e =>
          rw [hp] at hpa
          cases e <;> simp at hpa
        | ok prog =>
          rw [hp] at hpa hpb
          simp only [Except.ok.injEq, Prod.mk.injEq] at hpa hpb
          rw [← hpa.2, ← hpb.2]

instance (s : String) : Decidable (wsSep s) := by unfold wsSep; infer_instance

/-- C8 fails as stated: a tab is not an accepted separator.  The grammar
ignores only `" "` and `"\n"`, so replacing the space after `gen` in the
accepted source `gen f : 1 -> 1` by a tab makes the lexer fail with an
unexpected-characters error, and `State.update` records that diagnostic
instead of parsing an equivalent program. -/
theorem c8_tab_separator_rejected :
    isOkE (parseSource "gen f : 1 -> 1") = true ∧
    parseSource "gen\tf : 1 -> 1" = .error (ParseErr.chars 1 "Unexpected characters") ∧
    (State.update ⟨[], [], [], [], []⟩ "gen\tf : 1 -> 1").errors
      = [(1, "Unexpected characters")] := ⟨rfl, rfl, rfl⟩

/-- C8 (amended): replacing the separators between the token-bearing
pieces of a source text by any other non-empty mixes of spaces and
newlines preserves acceptance, and on success the two texts parse to the
same statements and the same tables: equal `graphs`, equal `rules`, equal
diagnostic messages, and equal span kinds/names — only source offsets and
line numbers may shift with the whitespace. -/
theorem c8_space_newline_insensitive (pieces seps1 seps2 : List String)
    (hs1 : ∀ s ∈ seps1, wsSep s) (hs2 : ∀ s ∈ seps2, wsSep s)
    (hl1 : seps1.length + 1 = pieces.length) (hl2 : seps2.length + 1 = pieces.length) :
    (isOkE (parseSource (interleave pieces seps1))
        = isOkE (parseSource (interleave pieces seps2))) ∧
    (∀ (st1 st2 : State) (tbl1 tbl2 : List PTok) (prog1 prog2 : List Stmt),
      parseSource (interleave pieces seps1) = .ok (tbl1, prog1) →
      parseSource (interleave pieces seps2) = .ok (tbl2, prog2) →
      (st1.update (interleave pieces seps1)).graphs
          = (st2.update (interleave pieces seps2)).graphs ∧
      (st1.update (interleave pieces seps1)).rules
          = (st2.update (interleave pieces seps2)).rules ∧
      (st1.update (interleave pieces seps1)).errors.map Prod.snd
          = (st2.update (interleave pieces seps2)).errors.map Prod.snd ∧
      spansKN (st1.update (interleave pieces seps1)).parts
          = spansKN (st2.update (interleave pieces seps2)).parts) := by
  have hk : klex (interleave pieces seps1).data none
      = klex (interleave pieces seps2).data none := by
    rw [klex_interleave pieces seps1 hs1 hl1, klex_interleave pieces seps2 hs2 hl2]
  obtain ⟨hok, hprog⟩ := parseSource_congr _ _ hk
  refine ⟨hok, ?_⟩
  intro st1 st2 tbl1 tbl2 prog1 prog2 h1 h2
  obtain rfl := hprog tbl1 prog1 tbl2 prog2 h1 h2
  have hu1 : st1.update (interleave pieces seps1) =
      { graphs := (transform tbl1 prog1).1.graphs, rules := (transform tbl1 prog1).1.rules,
        parts := (transform tbl1 prog1).2, holes := st1.holes,
        errors := (transform tbl1 prog1).1.errors } := by
    unfold State.update; rw [h1]
  have hu2 : st2.update (interleave pieces seps2) =
      { graphs := (transform tbl2 prog1).1.graphs, rules := (transform tbl2 prog1).1.rules,
        parts := (transform tbl2 prog1).2, holes := st2.holes,
        errors := (transform tbl2 prog1).1.errors } := by
    unfold State.update; rw [h2]
  rw [hu1, hu2]
  obtain ⟨⟨hg, hr, he⟩, hsp⟩ := transform_congr tbl1 tbl2 prog1
  exact ⟨hg, hr, he, hsp⟩

theorem c8_space_newline_insensitive_witness :
    (isOkE (parseSource (interleave ["gen", "f", ":", "1", "->", "1"]
          [" ", " ", " ", " ", " "]))
      = isOkE (parseSource (interleave ["gen", "f", ":", "1", "->", "1"]
          ["\n", "  ", " ", "\n\n", " "]))) ∧
    ((sampleState.update (interleave ["gen", "f", ":", "1", "->", "1"]
          [" ", " ", " ", " ", " "])).graphs
        = (((⟨[], [], [], [], []⟩ : State)).update
            (interleave ["gen", "f", ":", "1", "->", "1"]
              ["\n", "  ", " ", "\n\n", " "])).graphs) := by
  obtain ⟨hok, hrest⟩ := c8_space_newline_insensitive
    ["gen", "f", ":", "1", "->", "1"]
    [" ", " ", " ", " ", " "] ["\n", "  ", " ", "\n\n", " "]
    (by decide) (by decide) rfl rfl
  obtain ⟨⟨t1, p1⟩, e1⟩ : ∃ r, parseSource
      (interleave ["gen", "f", ":", "1", "->", "1"] [" ", " ", " ", " ", " "])
      = .ok r := ⟨_, rfl⟩
  obtain ⟨⟨t2, p2⟩, e2⟩ : ∃ r, parseSource
      (interleave ["gen", "f", ":", "1", "->", "1"] ["\n", "  ", " ", "\n\n", " "])
      = .ok r := ⟨_, rfl⟩
  exact ⟨hok, (hrest sampleState ⟨[], [], [], [], []⟩ t1 t2 p1 p2 e1 e2).1⟩

end StatePy

end Chyp
